import Mathlib

/-!
Verification of the ReplicOOP replication engine (`core/replication.py`)
against its natural-language specification.

The Python code is shallowly embedded: each relevant method of
`ReplicationManager` becomes a pure Lean function over explicit state
(lists of tables, column structures, rows), and the claims of the spec
are proved or refuted as theorems about those functions.
-/

namespace ReplicOOP

/-! ## Dependency ordering: `_sort_tables_by_dependencies`

The Python code builds, for every requested table, the list of tables it
foreign-key-references (restricted to the requested set and excluding
self-references), then runs a depth-first topological sort with a
`temp_visited` set used to skip back-edges of cycles.
-/

/-- The dependency map built at `replication.py:765-787`: for table `t`,
the referenced tables of `t` (as returned by the information-schema query,
modelled by `deps`) filtered to those inside `tables` and different from
`t` itself. -/
def deps_of (deps : String → List String) (tables : List String) (t : String) :
    List String :=
  (deps t).filter (fun r => r ∈ tables ∧ r ≠ t)

/-- The mutable state of the topological sort (`replication.py:790-792`):
`temp` is `temp_visited`, `visited` is `visited`, `ordered` is
`ordered_tables`. -/
structure VisitState where
  temp : List String
  visited : List String
  ordered : List String
  deriving Repr, DecidableEq

/-- One level of the recursive `visit` of `replication.py:794-810`, processing
a worklist of tables at a fixed recursion depth.  A table already in `temp`
(circular dependency, `replication.py:795-797`) or in `visited` is skipped;
otherwise it is pushed on `temp`, its dependencies are visited first (the
recursive call, abstracted here as `rec_`), and it is then moved to `visited`
and appended to `ordered`.  `(t :: s.temp).erase t` is `temp_visited.remove`. -/
def visitBody (deps : String → List String) (tables : List String)
    (rec_ : List String → VisitState → Option VisitState) :
    List String → VisitState → Option VisitState
  | [], s => some s
  | t :: rest, s =>
    if t ∈ s.temp ∨ t ∈ s.visited then
      visitBody deps tables rec_ rest s
    else
      match rec_ (deps_of deps tables t) { s with temp := t :: s.temp } with
      | none => none
      | some s2 =>
          visitBody deps tables rec_ rest
            { temp := s2.temp.erase t
              visited := t :: s2.visited
              ordered := s2.ordered ++ [t] }

/-- The recursive `visit`, embedded with a fuel parameter bounding the
recursion depth (Python's recursion is unbounded; `visitL_isSome` below
proves the fuel used by `sort_tables_by_dependencies` is never exhausted,
so the `none` case is unreachable there). -/
def visitL (deps : String → List String) (tables : List String) :
    Nat → List String → VisitState → Option VisitState
  | 0, [], s => some s
  | 0, _ :: _, _ => none
  | fuel + 1, l, s => visitBody deps tables (visitL deps tables fuel) l s

/-- `_sort_tables_by_dependencies` (`replication.py:748-823`): runs the
DFS over all requested tables starting from the empty state.  The
`| none` branch mirrors the `except` fallback that returns the original
order; `visitL_isSome` below shows it is never taken. -/
def sort_tables_by_dependencies (deps : String → List String)
    (tables : List String) : List String :=
  match visitL deps tables (tables.length + 1) tables ⟨[], [], []⟩ with
  | some s => s.ordered
  | none => tables

/-- Restricted dependencies lie inside the requested table set and are never
the table itself (the filter at `replication.py:783`). -/
theorem deps_of_mem {deps : String → List String} {tables : List String}
    {t d : String} (h : d ∈ deps_of deps tables t) : d ∈ tables ∧ d ≠ t := by
  simp only [deps_of, List.mem_filter, decide_eq_true_eq] at h
  exact h.2

theorem visitBody_temp_eq (deps : String → List String) (tables : List String)
    (rec_ : List String → VisitState → Option VisitState)
    (hrec : ∀ l s s2, rec_ l s = some s2 → s2.temp = s.temp) :
    ∀ l s s2, visitBody deps tables rec_ l s = some s2 → s2.temp = s.temp := by
  intro l
  induction l with
  | nil =>
    intro s s2 h
    simp only [visitBody, Option.some.injEq] at h
    rw [← h]
  | cons t rest ih =>
    intro s s2 h
    simp only [visitBody] at h
    by_cases hc : t ∈ s.temp ∨ t ∈ s.visited
    · rw [if_pos hc] at h
      exact ih s s2 h
    · rw [if_neg hc] at h
      cases hr : rec_ (deps_of deps tables t) { s with temp := t :: s.temp } with
      | none => rw [hr] at h; cases h
      | some s2' =>
        rw [hr] at h
        have ht : s2'.temp = t :: s.temp := hrec _ _ _ hr
        have h2 := ih _ _ h
        rw [h2]
        simp [ht]

theorem visitL_temp_eq (deps : String → List String) (tables : List String) :
    ∀ fuel l s s2, visitL deps tables fuel l s = some s2 → s2.temp = s.temp := by
  intro fuel
  induction fuel with
  | zero =>
    intro l s s2 h
    match l with
    | [] => simp only [visitL, Option.some.injEq] at h; rw [← h]
    | _ :: _ => simp only [visitL] at h; cases h
  | succ fuel ih =>
    intro l s s2 h
    exact visitBody_temp_eq deps tables _ ih l s s2 h

theorem visitBody_visited_mono (deps : String → List String) (tables : List String)
    (rec_ : List String → VisitState → Option VisitState)
    (hrec : ∀ l s s2, rec_ l s = some s2 → ∀ x, x ∈ s.visited → x ∈ s2.visited) :
    ∀ l s s2, visitBody deps tables rec_ l s = some s2 →
      ∀ x, x ∈ s.visited → x ∈ s2.visited := by
  intro l
  induction l with
  | nil =>
    intro s s2 h
    simp only [visitBody, Option.some.injEq] at h
    rw [← h]
    exact fun x hx => hx
  | cons t rest ih =>
    intro s s2 h
    simp only [visitBody] at h
    by_cases hc : t ∈ s.temp ∨ t ∈ s.visited
    · rw [if_pos hc] at h
      exact ih s s2 h
    · rw [if_neg hc] at h
      cases hr : rec_ (deps_of deps tables t) { s with temp := t :: s.temp } with
      | none => rw [hr] at h; cases h
      | some s2' =>
        rw [hr] at h
        intro x hx
        exact ih _ _ h x (List.mem_cons_of_mem _ (hrec _ _ _ hr x hx))

theorem visitL_visited_mono (deps : String → List String) (tables : List String) :
    ∀ fuel l s s2, visitL deps tables fuel l s = some s2 →
      ∀ x, x ∈ s.visited → x ∈ s2.visited := by
  intro fuel
  induction fuel with
  | zero =>
    intro l s s2 h
    match l with
    | [] =>
      simp only [visitL, Option.some.injEq] at h
      rw [← h]; exact fun x hx => hx
    | _ :: _ => simp only [visitL] at h; cases h
  | succ fuel ih =>
    intro l s s2 h
    exact visitBody_visited_mono deps tables _ ih l s s2 h

/-- A table newly added to `visited` during a call was not on the current
DFS path when the call started: members of `temp` are skipped at entry
(`replication.py:795-797`), so they can only be marked visited by the
frame that pushed them. -/
theorem visitBody_visited_not_temp (deps : String → List String) (tables : List String)
    (rec_ : List String → VisitState → Option VisitState)
    (hrec_t : ∀ l s s2, rec_ l s = some s2 → s2.temp = s.temp)
    (hrec : ∀ l s s2, rec_ l s = some s2 →
      ∀ x, x ∈ s2.visited → x ∈ s.visited ∨ x ∉ s.temp) :
    ∀ l s s2, visitBody deps tables rec_ l s = some s2 →
      ∀ x, x ∈ s2.visited → x ∈ s.visited ∨ x ∉ s.temp := by
  intro l
  induction l with
  | nil =>
    intro s s2 h
    simp only [visitBody, Option.some.injEq] at h
    rw [← h]
    exact fun x hx => Or.inl hx
  | cons t rest ih =>
    intro s s2 h
    simp only [visitBody] at h
    by_cases hc : t ∈ s.temp ∨ t ∈ s.visited
    · rw [if_pos hc] at h
      exact ih s s2 h
    · rw [if_neg hc] at h
      push_neg at hc
      cases hr : rec_ (deps_of deps tables t) { s with temp := t :: s.temp } with
      | none => rw [hr] at h; cases h
      | some s2' =>
        rw [hr] at h
        have htemp : s2'.temp = t :: s.temp := hrec_t _ _ _ hr
        intro x hx
        rcases ih _ _ h x hx with hx3 | hx3
        · rcases List.mem_cons.mp hx3 with rfl | hx4
          · exact Or.inr hc.1
          · rcases hrec _ _ _ hr x hx4 with h5 | h5
            · exact Or.inl h5
            · exact Or.inr fun hmem => h5 (List.mem_cons_of_mem _ hmem)
        · refine Or.inr fun hmem => hx3 ?_
          show x ∈ s2'.temp.erase t
          rw [htemp, List.erase_cons_head]
          exact hmem

theorem visitL_visited_not_temp (deps : String → List String) (tables : List String) :
    ∀ fuel l s s2, visitL deps tables fuel l s = some s2 →
      ∀ x, x ∈ s2.visited → x ∈ s.visited ∨ x ∉ s.temp := by
  intro fuel
  induction fuel with
  | zero =>
    intro l s s2 h
    match l with
    | [] =>
      simp only [visitL, Option.some.injEq] at h
      rw [← h]; exact fun x hx => Or.inl hx
    | _ :: _ => simp only [visitL] at h; cases h
  | succ fuel ih =>
    intro l s s2 h
    exact visitBody_visited_not_temp deps tables _ (visitL_temp_eq deps tables fuel) ih l s s2 h

/-- Every table newly added to `visited` is a member of the requested set:
the worklists processed are either the requested tables themselves or
dependencies filtered to the requested set. -/
theorem visitBody_visited_src (deps : String → List String) (tables : List String)
    (rec_ : List String → VisitState → Option VisitState)
    (hrec : ∀ l s s2, rec_ l s = some s2 → (∀ x ∈ l, x ∈ tables) →
      ∀ x, x ∈ s2.visited → x ∈ s.visited ∨ x ∈ tables) :
    ∀ l s s2, visitBody deps tables rec_ l s = some s2 → (∀ x ∈ l, x ∈ tables) →
      ∀ x, x ∈ s2.visited → x ∈ s.visited ∨ x ∈ tables := by
  intro l
  induction l with
  | nil =>
    intro s s2 h _
    simp only [visitBody, Option.some.injEq] at h
    rw [← h]
    exact fun x hx => Or.inl hx
  | cons t rest ih =>
    intro s s2 h hl
    simp only [visitBody] at h
    by_cases hc : t ∈ s.temp ∨ t ∈ s.visited
    · rw [if_pos hc] at h
      exact ih s s2 h (fun x hx => hl x (List.mem_cons_of_mem _ hx))
    · rw [if_neg hc] at h
      cases hr : rec_ (deps_of deps tables t) { s with temp := t :: s.temp } with
      | none => rw [hr] at h; cases h
      | some s2' =>
        rw [hr] at h
        intro x hx
        rcases ih _ _ h (fun x hx => hl x (List.mem_cons_of_mem _ hx)) x hx with hx3 | hx3
        · rcases List.mem_cons.mp hx3 with rfl | hx4
          · exact Or.inr (hl x (List.mem_cons_self _ _))
          · exact hrec _ _ _ hr (fun d hd => (deps_of_mem hd).1) x hx4
        · exact Or.inr hx3

theorem visitL_visited_src (deps : String → List String) (tables : List String) :
    ∀ fuel l s s2, visitL deps tables fuel l s = some s2 → (∀ x ∈ l, x ∈ tables) →
      ∀ x, x ∈ s2.visited → x ∈ s.visited ∨ x ∈ tables := by
  intro fuel
  induction fuel with
  | zero =>
    intro l s s2 h _
    match l with
    | [] =>
      simp only [visitL, Option.some.injEq] at h
      rw [← h]; exact fun x hx => Or.inl hx
    | _ :: _ => simp only [visitL] at h; cases h
  | succ fuel ih =>
    intro l s s2 h
    exact visitBody_visited_src deps tables _ ih l s s2 h

/-- Run-time invariant of the sort: `visited` and `ordered` hold the same
tables, and no table is appended to `ordered` twice. -/
def Inv9 (s : VisitState) : Prop :=
  (∀ x, x ∈ s.visited ↔ x ∈ s.ordered) ∧ s.ordered.Nodup

theorem visitBody_master9 (deps : String → List String) (tables : List String)
    (rec_ : List String → VisitState → Option VisitState)
    (hrec_t : ∀ l s s2, rec_ l s = some s2 → s2.temp = s.temp)
    (hrec_nt : ∀ l s s2, rec_ l s = some s2 →
      ∀ x, x ∈ s2.visited → x ∈ s.visited ∨ x ∉ s.temp)
    (hrec_mono : ∀ l s s2, rec_ l s = some s2 → ∀ x, x ∈ s.visited → x ∈ s2.visited)
    (hrec_m : ∀ l s s2, rec_ l s = some s2 → Inv9 s →
      Inv9 s2 ∧ (∀ x ∈ l, x ∈ s2.visited ∨ x ∈ s.temp)) :
    ∀ l s s2, visitBody deps tables rec_ l s = some s2 → Inv9 s →
      Inv9 s2 ∧ (∀ x ∈ l, x ∈ s2.visited ∨ x ∈ s.temp) := by
  intro l
  induction l with
  | nil =>
    intro s s2 h hInv
    simp only [visitBody, Option.some.injEq] at h
    rw [← h]
    exact ⟨hInv, by simp⟩
  | cons t rest ih =>
    intro s s2 h hInv
    simp only [visitBody] at h
    by_cases hc : t ∈ s.temp ∨ t ∈ s.visited
    · rw [if_pos hc] at h
      obtain ⟨hInv2, hcov⟩ := ih s s2 h hInv
      refine ⟨hInv2, fun x hx => ?_⟩
      rcases List.mem_cons.mp hx with rfl | hx2
      · rcases hc with hc | hc
        · exact Or.inr hc
        · exact Or.inl (visitBody_visited_mono deps tables rec_ hrec_mono rest s s2 h x hc)
      · exact hcov x hx2
    · rw [if_neg hc] at h
      push_neg at hc
      cases hr : rec_ (deps_of deps tables t) { s with temp := t :: s.temp } with
      | none => rw [hr] at h; cases h
      | some s2' =>
        rw [hr] at h
        obtain ⟨⟨hvo2, hnd2⟩, _⟩ := hrec_m _ _ _ hr hInv
        have htemp : s2'.temp = t :: s.temp := hrec_t _ _ _ hr
        have htv : t ∉ s2'.visited := by
          intro hmem
          rcases hrec_nt _ _ _ hr t hmem with h5 | h5
          · exact hc.2 h5
          · exact h5 (List.mem_cons_self _ _)
        have hInv3 : Inv9 ⟨s2'.temp.erase t, t :: s2'.visited, s2'.ordered ++ [t]⟩ := by
          constructor
          · intro x
            simp only [List.mem_cons, List.mem_append, List.mem_singleton]
            rw [hvo2 x]
            tauto
          · simp only [List.nodup_append, List.nodup_cons, List.nodup_nil,
              List.mem_singleton, List.disjoint_singleton]
            refine ⟨hnd2, by simp, fun hmem => htv ((hvo2 t).mpr hmem)⟩
        obtain ⟨hInv4, hcov4⟩ := ih _ _ h hInv3
        refine ⟨hInv4, fun x hx => ?_⟩
        rcases List.mem_cons.mp hx with rfl | hx2
        · exact Or.inl (visitBody_visited_mono deps tables rec_ hrec_mono rest _ s2 h x
            (List.mem_cons_self _ _))
        · rcases hcov4 x hx2 with h5 | h5
          · exact Or.inl h5
          · refine Or.inr ?_
            have : x ∈ s2'.temp.erase t := h5
            rw [htemp, List.erase_cons_head] at this
            exact this

theorem visitL_master9 (deps : String → List String) (tables : List String) :
    ∀ fuel l s s2, visitL deps tables fuel l s = some s2 → Inv9 s →
      Inv9 s2 ∧ (∀ x ∈ l, x ∈ s2.visited ∨ x ∈ s.temp) := by
  intro fuel
  induction fuel with
  | zero =>
    intro l s s2 h hInv
    match l with
    | [] =>
      simp only [visitL, Option.some.injEq] at h
      rw [← h]; exact ⟨hInv, by simp⟩
    | _ :: _ => simp only [visitL] at h; cases h
  | succ fuel ih =>
    intro l s s2 h
    exact visitBody_master9 deps tables _ (visitL_temp_eq deps tables fuel)
      (visitL_visited_not_temp deps tables fuel)
      (visitL_visited_mono deps tables fuel) ih l s s2 h

/-- Run-time invariant of the sort in the acyclic case: `visited` and
`ordered` agree, every emitted table has all of its restricted dependencies
already visited, and no emitted table precedes a table it references. -/
def InvC (deps : String → List String) (tables : List String) (s : VisitState) : Prop :=
  (∀ x, x ∈ s.visited ↔ x ∈ s.ordered) ∧
  (∀ a ∈ s.ordered, ∀ d ∈ deps_of deps tables a, d ∈ s.visited) ∧
  s.ordered.Pairwise (fun a b => b ∉ deps_of deps tables a)

theorem visitBody_masterC (deps : String → List String) (tables : List String)
    (rank : String → Nat)
    (hrank : ∀ t ∈ tables, ∀ d ∈ deps_of deps tables t, rank d < rank t)
    (rec_ : List String → VisitState → Option VisitState)
    (hrec_t : ∀ l s s2, rec_ l s = some s2 → s2.temp = s.temp)
    (hrec_nt : ∀ l s s2, rec_ l s = some s2 →
      ∀ x, x ∈ s2.visited → x ∈ s.visited ∨ x ∉ s.temp)
    (hrec_mono : ∀ l s s2, rec_ l s = some s2 → ∀ x, x ∈ s.visited → x ∈ s2.visited)
    (hrec_m : ∀ l s s2, rec_ l s = some s2 → (∀ x ∈ l, x ∈ tables) →
      (∀ u ∈ s.temp, ∀ x ∈ l, rank x < rank u) → InvC deps tables s →
      InvC deps tables s2 ∧ (∀ x ∈ l, x ∈ s2.visited)) :
    ∀ l s s2, visitBody deps tables rec_ l s = some s2 → (∀ x ∈ l, x ∈ tables) →
      (∀ u ∈ s.temp, ∀ x ∈ l, rank x < rank u) → InvC deps tables s →
      InvC deps tables s2 ∧ (∀ x ∈ l, x ∈ s2.visited) := by
  intro l
  induction l with
  | nil =>
    intro s s2 h _ _ hInv
    simp only [visitBody, Option.some.injEq] at h
    rw [← h]
    exact ⟨hInv, by simp⟩
  | cons t rest ih =>
    intro s s2 h hl htempr hInv
    have hlr : ∀ x ∈ rest, x ∈ tables := fun x hx => hl x (List.mem_cons_of_mem _ hx)
    have htempr' : ∀ u ∈ s.temp, ∀ x ∈ rest, rank x < rank u :=
      fun u hu x hx => htempr u hu x (List.mem_cons_of_mem _ hx)
    simp only [visitBody] at h
    by_cases hc : t ∈ s.temp ∨ t ∈ s.visited
    · rcases hc with hc1 | hc1
      · exact absurd (htempr t hc1 t (List.mem_cons_self _ _)) (Nat.lt_irrefl _)
      · rw [if_pos (Or.inr hc1)] at h
        obtain ⟨hInv2, hcov⟩ := ih s s2 h hlr htempr' hInv
        refine ⟨hInv2, fun x hx => ?_⟩
        rcases List.mem_cons.mp hx with rfl | hx2
        · exact visitBody_visited_mono deps tables rec_ hrec_mono rest s s2 h x hc1
        · exact hcov x hx2
    · rw [if_neg hc] at h
      push_neg at hc
      have htmem : t ∈ tables := hl t (List.mem_cons_self _ _)
      cases hr : rec_ (deps_of deps tables t) { s with temp := t :: s.temp } with
      | none => rw [hr] at h; cases h
      | some s2' =>
        rw [hr] at h
        have hdep_t : ∀ u ∈ t :: s.temp, ∀ x ∈ deps_of deps tables t, rank x < rank u := by
          intro u hu x hx
          rcases List.mem_cons.mp hu with rfl | hu2
          · exact hrank u htmem x hx
          · exact Nat.lt_trans (hrank t htmem x hx)
              (htempr u hu2 t (List.mem_cons_self _ _))
        obtain ⟨⟨hvo2, hcl2, hpw2⟩, hcov2⟩ :=
          hrec_m _ _ _ hr (fun d hd => (deps_of_mem hd).1) hdep_t hInv
        have htemp : s2'.temp = t :: s.temp := hrec_t _ _ _ hr
        have htv : t ∉ s2'.visited := by
          intro hmem
          rcases hrec_nt _ _ _ hr t hmem with h5 | h5
          · exact hc.2 h5
          · exact h5 (List.mem_cons_self _ _)
        have hInv3 : InvC deps tables ⟨s2'.temp.erase t, t :: s2'.visited,
            s2'.ordered ++ [t]⟩ := by
          refine ⟨?_, ?_, ?_⟩
          · intro x
            simp only [List.mem_cons, List.mem_append, List.mem_singleton]
            rw [hvo2 x]
            tauto
          · intro a ha d hd
            simp only [List.mem_append, List.mem_singleton] at ha
            rcases ha with ha | rfl
            · exact List.mem_cons_of_mem _ (hcl2 a ha d hd)
            · exact List.mem_cons_of_mem _ (hcov2 d hd)
          · rw [List.pairwise_append]
            refine ⟨hpw2, List.pairwise_singleton _ _, ?_⟩
            intro a ha b hb
            rw [List.mem_singleton] at hb
            subst hb
            intro hmem
            exact htv (hcl2 a ha b hmem)
        obtain ⟨hInv4, hcov4⟩ := ih _ _ h hlr
          (by
            intro u hu x hx
            have : u ∈ s.temp := by
              have h6 : u ∈ s2'.temp.erase t := hu
              rw [htemp, List.erase_cons_head] at h6
              exact h6
            exact htempr' u this x hx)
          hInv3
        refine ⟨hInv4, fun x hx => ?_⟩
        rcases List.mem_cons.mp hx with rfl | hx2
        · exact visitBody_visited_mono deps tables rec_ hrec_mono rest _ s2 h x
            (List.mem_cons_self _ _)
        · exact hcov4 x hx2

theorem visitL_masterC (deps : String → List String) (tables : List String)
    (rank : String → Nat)
    (hrank : ∀ t ∈ tables, ∀ d ∈ deps_of deps tables t, rank d < rank t) :
    ∀ fuel l s s2, visitL deps tables fuel l s = some s2 → (∀ x ∈ l, x ∈ tables) →
      (∀ u ∈ s.temp, ∀ x ∈ l, rank x < rank u) → InvC deps tables s →
      InvC deps tables s2 ∧ (∀ x ∈ l, x ∈ s2.visited) := by
  intro fuel
  induction fuel with
  | zero =>
    intro l s s2 h _ _ hInv
    match l with
    | [] =>
      simp only [visitL, Option.some.injEq] at h
      rw [← h]; exact ⟨hInv, by simp⟩
    | _ :: _ => simp only [visitL] at h; cases h
  | succ fuel ih =>
    intro l s s2 h
    exact visitBody_masterC deps tables rank hrank _ (visitL_temp_eq deps tables fuel)
      (visitL_visited_not_temp deps tables fuel)
      (visitL_visited_mono deps tables fuel) ih l s s2 h

/-- A duplicate-free list contained in `tables` is no longer than the list
of distinct members of `tables`. -/
theorem nodup_subset_length_le (l tables : List String) (hnd : l.Nodup)
    (hsub : ∀ x ∈ l, x ∈ tables) : l.length ≤ tables.dedup.length := by
  have h1 : l.toFinset.card = l.length := List.toFinset_card_of_nodup hnd
  have h2 : tables.toFinset.card = tables.dedup.length := List.card_toFinset tables
  have h3 : l.toFinset ⊆ tables.toFinset := by
    intro x hx
    rw [List.mem_toFinset] at hx ⊢
    exact hsub x hx
  have := Finset.card_le_card h3
  omega

/-- Fuel sufficiency: the DFS recursion depth is bounded by the number of
distinct requested tables, because each recursion level pushes a new
table of the requested set onto `temp`. -/
theorem visitBody_isSome (deps : String → List String) (tables : List String) (fuel : Nat)
    (rec_ : List String → VisitState → Option VisitState)
    (hrec_t : ∀ l s s2, rec_ l s = some s2 → s2.temp = s.temp)
    (hrec_s : ∀ l s, s.temp.Nodup → (∀ x ∈ s.temp, x ∈ tables) →
      (∀ x ∈ l, x ∈ tables) → tables.dedup.length - s.temp.length < fuel →
      (rec_ l s).isSome) :
    ∀ l s, s.temp.Nodup → (∀ x ∈ s.temp, x ∈ tables) → (∀ x ∈ l, x ∈ tables) →
      tables.dedup.length - s.temp.length < fuel + 1 →
      (visitBody deps tables rec_ l s).isSome := by
  intro l
  induction l with
  | nil =>
    intro s _ _ _ _
    simp [visitBody]
  | cons t rest ih =>
    intro s hnd hts hl hfuel
    have hlr : ∀ x ∈ rest, x ∈ tables := fun x hx => hl x (List.mem_cons_of_mem _ hx)
    simp only [visitBody]
    by_cases hc : t ∈ s.temp ∨ t ∈ s.visited
    · rw [if_pos hc]
      exact ih s hnd hts hlr hfuel
    · rw [if_neg hc]
      push_neg at hc
      have htmem : t ∈ tables := hl t (List.mem_cons_self _ _)
      have hnd1 : (t :: s.temp).Nodup := List.nodup_cons.mpr ⟨hc.1, hnd⟩
      have hts1 : ∀ x ∈ t :: s.temp, x ∈ tables := by
        intro x hx
        rcases List.mem_cons.mp hx with rfl | hx2
        · exact htmem
        · exact hts x hx2
      have hcard : s.temp.length + 1 ≤ tables.dedup.length := by
        have := nodup_subset_length_le (t :: s.temp) tables hnd1 hts1
        simpa using this
      have hsome := hrec_s (deps_of deps tables t) { s with temp := t :: s.temp }
        hnd1 hts1 (fun d hd => (deps_of_mem hd).1) (by simp only [List.length_cons]; omega)
      cases hr : rec_ (deps_of deps tables t) { s with temp := t :: s.temp } with
      | none => rw [hr] at hsome; cases hsome
      | some s2' =>
        have htemp : s2'.temp = t :: s.temp := hrec_t _ _ _ hr
        have herase : s2'.temp.erase t = s.temp := by
          rw [htemp, List.erase_cons_head]
        exact ih _ (by rw [herase]; exact hnd) (by rw [herase]; exact hts) hlr
          (by rw [herase]; exact hfuel)

theorem visitL_isSome (deps : String → List String) (tables : List String) :
    ∀ fuel l s, s.temp.Nodup → (∀ x ∈ s.temp, x ∈ tables) →
      (∀ x ∈ l, x ∈ tables) → tables.dedup.length - s.temp.length < fuel →
      (visitL deps tables fuel l s).isSome := by
  intro fuel
  induction fuel with
  | zero =>
    intro l s _ _ _ hfuel
    exact absurd hfuel (Nat.not_lt_zero _)
  | succ fuel ih =>
    intro l s hnd hts hl hfuel
    exact visitBody_isSome deps tables fuel _ (visitL_temp_eq deps tables fuel)
      ih l s hnd hts hl (by omega)

/-- Requested-table defaulting of `get_replication_plan`
(`replication.py:116-124`): `if not tables:` falls back to the configured
maintain tables, then to all source tables. -/
def plan_requested (maintain source_tables : List String)
    (tables : Option (List String)) : List String :=
  match tables with
  | none => if maintain = [] then source_tables else maintain
  | some l =>
    if l = [] then (if maintain = [] then source_tables else maintain) else l

/-- Order of `plan['tables_to_replicate']` (`replication.py:147-182`): the
requested tables are scanned in the order given and those absent from the
source are skipped with a warning; `get_replication_plan` itself performs no
reordering. -/
def plan_tables_order (maintain source_tables : List String)
    (tables : Option (List String)) : List String :=
  (plan_requested maintain source_tables tables).filter (fun t => t ∈ source_tables)

/-- Table-list selection of `execute_replication` (`replication.py:226-232`):
only when `tables is None` are all source tables fetched and sorted by FK
dependencies; an explicitly passed list is forwarded to
`get_replication_plan` as-is, unsorted. -/
def execute_replication_plan_order (deps : String → List String)
    (maintain source_tables : List String)
    (tables : Option (List String)) : List String :=
  match tables with
  | none => plan_tables_order maintain source_tables
      (some (sort_tables_by_dependencies deps source_tables))
  | some l => plan_tables_order maintain source_tables (some l)

/-- C9: for every input table set — cyclic FK graphs included — the
dependency ordering terminates (the fuelled DFS never exhausts its fuel)
and its output is a permutation of the input: every input table appears in
the output exactly once; back-edges of cycles are skipped, not failed on. -/
theorem claim_C9_sort_terminates_and_permutes (deps : String → List String)
    (tables : List String) (hnd : tables.Nodup) :
    (visitL deps tables (tables.length + 1) tables ⟨[], [], []⟩).isSome ∧
    (sort_tables_by_dependencies deps tables).Perm tables := by
  have hsome := visitL_isSome deps tables (tables.length + 1) tables ⟨[], [], []⟩
    (by simp) (by simp) (fun x hx => hx)
    (by
      have := (List.dedup_sublist tables).length_le
      simp only [List.length_nil]
      omega)
  refine ⟨hsome, ?_⟩
  cases h2 : visitL deps tables (tables.length + 1) tables ⟨[], [], []⟩ with
  | none => rw [h2] at hsome; cases hsome
  | some s2 =>
    obtain ⟨⟨hvo, hnd2⟩, hcov⟩ := visitL_master9 deps tables (tables.length + 1)
      tables ⟨[], [], []⟩ s2 h2 ⟨by simp, List.nodup_nil⟩
    have hres : sort_tables_by_dependencies deps tables = s2.ordered := by
      simp [sort_tables_by_dependencies, h2]
    rw [hres]
    apply List.perm_of_nodup_nodup_toFinset_eq hnd2 hnd
    ext x
    simp only [List.mem_toFinset]
    constructor
    · intro hx
      rcases visitL_visited_src deps tables (tables.length + 1) tables ⟨[], [], []⟩ s2 h2
        (fun y hy => hy) x ((hvo x).mpr hx) with h3 | h3
      · cases h3
      · exact h3
    · intro hx
      rcases hcov x hx with h3 | h3
      · exact (hvo x).mp h3
      · cases h3

/-- C9 witness: a two-table foreign-key cycle (`a` references `b` and `b`
references `a`); the sort still terminates and emits each table once. -/
theorem claim_C9_witness :
    ([("a" : String), "b"].Nodup) ∧
    ((visitL (fun t => if t = "a" then ["b"] else ["a"]) ["a", "b"]
        ([("a" : String), "b"].length + 1) ["a", "b"] ⟨[], [], []⟩).isSome ∧
      (sort_tables_by_dependencies (fun t => if t = "a" then ["b"] else ["a"])
        ["a", "b"]).Perm ["a", "b"]) :=
  ⟨by decide, claim_C9_sort_terminates_and_permutes
    (fun t => if t = "a" then ["b"] else ["a"]) ["a", "b"] (by decide)⟩

/-- C2: on an acyclic FK graph (acyclicity witnessed by a rank function that
strictly decreases along restricted references) the dependency ordering
never places a table earlier than a table it references within the set, and
it contains exactly the requested tables. -/
theorem claim_C2_acyclic_order_respects_references (deps : String → List String)
    (tables : List String) (rank : String → Nat)
    (hrank : ∀ t ∈ tables, ∀ d ∈ deps_of deps tables t, rank d < rank t) :
    (sort_tables_by_dependencies deps tables).Pairwise
      (fun a b => b ∉ deps_of deps tables a) ∧
    (∀ x, x ∈ sort_tables_by_dependencies deps tables ↔ x ∈ tables) := by
  have hsome := visitL_isSome deps tables (tables.length + 1) tables ⟨[], [], []⟩
    (by simp) (by simp) (fun x hx => hx)
    (by
      have := (List.dedup_sublist tables).length_le
      simp only [List.length_nil]
      omega)
  cases h2 : visitL deps tables (tables.length + 1) tables ⟨[], [], []⟩ with
  | none => rw [h2] at hsome; cases hsome
  | some s2 =>
    obtain ⟨⟨hvo, _, hpw⟩, hcov⟩ := visitL_masterC deps tables rank hrank
      (tables.length + 1) tables ⟨[], [], []⟩ s2 h2 (fun y hy => hy)
      (by intro u hu; cases hu) ⟨by simp, by simp, List.Pairwise.nil⟩
    have hres : sort_tables_by_dependencies deps tables = s2.ordered := by
      simp [sort_tables_by_dependencies, h2]
    rw [hres]
    refine ⟨hpw, fun x => ⟨fun hx => ?_, fun hx => (hvo x).mp (hcov x hx)⟩⟩
    rcases visitL_visited_src deps tables (tables.length + 1) tables ⟨[], [], []⟩ s2 h2
      (fun y hy => hy) x ((hvo x).mpr hx) with h3 | h3
    · cases h3
    · exact h3

/-- C2 witness: `b` references `a`, requested in the order `[b, a]`; the
emitted order respects the dependency and covers both tables. -/
theorem claim_C2_witness :
    (∀ t ∈ [("b" : String), "a"],
      ∀ d ∈ deps_of (fun t => if t = "b" then ["a"] else []) ["b", "a"] t,
        (if d = "b" then 1 else 0) < (if t = "b" then 1 else 0)) ∧
    ((sort_tables_by_dependencies (fun t => if t = "b" then ["a"] else [])
        ["b", "a"]).Pairwise
      (fun a b => b ∉ deps_of (fun t => if t = "b" then ["a"] else []) ["b", "a"] a) ∧
    (∀ x, x ∈ sort_tables_by_dependencies (fun t => if t = "b" then ["a"] else [])
        ["b", "a"] ↔ x ∈ [("b" : String), "a"])) :=
  ⟨by decide, claim_C2_acyclic_order_respects_references
    (fun t => if t = "b" then ["a"] else []) ["b", "a"]
    (fun t => if t = "b" then 1 else 0) (by decide)⟩

/-- C7 counterexample: source has tables `a` (no FK) and `b` (FK to `a`);
the caller requests `[b, a]` explicitly.  `execute_replication` does not
sort an explicitly passed list, so the plan keeps the requested order
`[b, a]`, not the claimed `[a, b]`. -/
theorem claim_C7_counterexample :
    execute_replication_plan_order (fun t => if t = "b" then ["a"] else [])
      [] ["a", "b"] (some ["b", "a"]) = ["b", "a"] ∧
    (["b", "a"] : List String) ≠ ["a", "b"] := by
  constructor
  · rfl
  · decide

/-- C7 amended: with tables `a` (no FK) and `b` (FK to `a`), an explicitly
requested list `[b, a]` is kept in the requested order `[b, a]`; the
dependency sort producing `[a, b]` is applied only when no table list is
passed (`tables=None`), as shown here with source order `[b, a]`. -/
theorem claim_C7_amended_plan_order :
    execute_replication_plan_order (fun t => if t = "b" then ["a"] else [])
      [] ["a", "b"] (some ["b", "a"]) = ["b", "a"] ∧
    execute_replication_plan_order (fun t => if t = "b" then ["a"] else [])
      [] ["b", "a"] none = ["a", "b"] := by
  constructor <;> rfl

/-! ## Data synchronization: `_replicate_table_data`

`_replicate_table_data` (`replication.py:519-708`) clears the target
table, copies the source rows in batches, and runs the zero-identity
preservation protocol for auto-increment columns.  The target table's
observable state is its introspected column structure, its rows, and the
`AUTO_INCREMENT` counter from `SHOW CREATE TABLE`.
-/

/-- A column as returned by `get_table_structure` (the dict keys the engine
reads: `Field`, `Type`, `Null`, `Key`, `Default`, `Extra`).  `Type` is a
reserved word in Lean, hence `Typ`. -/
structure TableColumn where
  Field : String
  Typ : String
  Null : String
  Key : String
  Default : Option String
  Extra : String
  deriving Repr, DecidableEq

/-- A row as a dict from column name to value (`none` models SQL NULL). -/
abbrev Row : Type := List (String × Option Int)

/-- `row.get(col)`: the value of column `c` in row `r` (NULL or a missing
key both give `none`). -/
def rowVal (r : Row) (c : String) : Option Int :=
  match List.lookup c r with
  | some v => v
  | none => none

/-- The target-side state touched by `_replicate_table_data`. -/
structure SyncTableState where
  cols : List TableColumn
  rows : List Row
  auto_increment_value : Option Int
  zero_preserve : Bool
  deriving Repr, DecidableEq

/-- Python's `str.lower()` over the underlying character list (the attribute
values compared by the engine are ASCII). -/
def lower_str (s : String) : String := String.mk (s.data.map Char.toLower)

/-- The first column whose `Extra` lowercases to `auto_increment`
(`replication.py:534-539`). -/
def auto_increment_field (cols : List TableColumn) : Option String :=
  (cols.find? (fun c => lower_str c.Extra == "auto_increment")).map (fun c => c.Field)

/-- `SELECT COUNT(*) FROM t WHERE f = 0` (`replication.py:547, 645, 687`). -/
def count_zero (rows : List Row) (f : String) : Nat :=
  (rows.filter (fun r => rowVal r f == some 0)).length

/-- `ALTER TABLE t MODIFY COLUMN f <type> <null>` — the auto-generation
attribute is removed from column `f` (`replication.py:566-580`). -/
def remove_auto_increment (cols : List TableColumn) (f : String) : List TableColumn :=
  cols.map (fun c => if c.Field = f then { c with Extra := "" } else c)

/-- `ALTER TABLE t MODIFY COLUMN f <type> <null> AUTO_INCREMENT`
(`replication.py:660-670`). -/
def restore_auto_increment (cols : List TableColumn) (f : String) : List TableColumn :=
  cols.map (fun c => if c.Field = f then { c with Extra := "auto_increment" } else c)

/-- `SELECT COALESCE(MAX(f), 0)` over the target rows
(`replication.py:675-677`). -/
def max_id (rows : List Row) (f : String) : Int :=
  match rows.filterMap (fun r => rowVal r f) with
  | [] => 0
  | v :: vs => vs.foldl max v

/-- The post-copy restore decision (`replication.py:643-682`): if any row
still has identity value `0`, auto-generation is NOT restored; otherwise
the attribute is put back and, when the original counter was recorded, the
counter is set to `max(current_max + 1, original)`. -/
def restore_auto_increment_decision (f : String) (orig : Option Int)
    (s : SyncTableState) : SyncTableState :=
  if 0 < count_zero s.rows f then s
  else
    let s1 := { s with cols := restore_auto_increment s.cols f }
    match orig with
    | some v =>
        { s1 with auto_increment_value := some (max (max_id s1.rows f + 1) v) }
    | none => s1

/-- `_replicate_table_data` (`replication.py:519-708`): enable the
zero-preserve SQL mode, detect the auto-increment column, apply the
zero-identity fix when the source holds a zero-valued identity row
(record the counter, strip the attribute), clear the target rows, copy
all source rows in batches (net effect: the target rows equal the source
rows), then run the restore decision and reset the SQL mode.  The early
`return` on an empty source (`replication.py:590-592`) skips the mode
reset. -/
def replicate_table_data (source_rows : List Row) (s0 : SyncTableState) :
    SyncTableState :=
  let s := { s0 with zero_preserve := true }
  match auto_increment_field s.cols with
  | some f =>
    if 0 < count_zero source_rows f then
      let orig := s.auto_increment_value
      let s1 := { s with cols := remove_auto_increment s.cols f, rows := ([] : List Row) }
      if source_rows.isEmpty then s1
      else
        let s2 := restore_auto_increment_decision f orig { s1 with rows := source_rows }
        { s2 with zero_preserve := false }
    else
      let s1 := { s with rows := ([] : List Row) }
      if source_rows.isEmpty then s1
      else
        { s1 with rows := source_rows, zero_preserve := false }
  | none =>
      let s1 := { s with rows := ([] : List Row) }
      if source_rows.isEmpty then s1
      else
        { s1 with rows := source_rows, zero_preserve := false }

theorem count_zero_pos_iff (rows : List Row) (f : String) :
    0 < count_zero rows f ↔ ∃ r ∈ rows, rowVal r f = some 0 := by
  simp [count_zero, List.length_pos_iff_exists_mem, List.mem_filter]

theorem remove_auto_increment_extra (cols : List TableColumn) (f : String) :
    ∀ c ∈ remove_auto_increment cols f, c.Field = f → c.Extra = "" := by
  intro c hc hcf
  simp only [remove_auto_increment, List.mem_map] at hc
  obtain ⟨c0, hc0, rfl⟩ := hc
  by_cases h : c0.Field = f
  · simp [h]
  · rw [if_neg h] at hcf
    exact absurd hcf h

/-- C1: for a table with an auto-generated identity column whose source data
holds a zero-valued identity row, after `_replicate_table_data` the target
rows are exactly the source rows (the zero row is stored verbatim), the
identity column ends the run with its auto-generation attribute removed
(never restored), and the recorded counter is untouched.  Additionally, the
restore branch of the protocol: whenever the post-copy zero count is `0`,
the attribute is restored and — when the original counter had been
recorded — the counter is set to `max(current_max + 1, original)`. -/
theorem claim_C1_zero_identity_preservation
    (source_rows : List Row) (s : SyncTableState) (f : String)
    (hf : auto_increment_field s.cols = some f)
    (hz : ∃ r ∈ source_rows, rowVal r f = some 0) :
    ((replicate_table_data source_rows s).rows = source_rows ∧
      (∃ r ∈ (replicate_table_data source_rows s).rows, rowVal r f = some 0) ∧
      (∀ c ∈ (replicate_table_data source_rows s).cols, c.Field = f → c.Extra = "") ∧
      (replicate_table_data source_rows s).auto_increment_value
        = s.auto_increment_value) ∧
    (∀ (orig : Option Int) (st : SyncTableState), count_zero st.rows f = 0 →
      (restore_auto_increment_decision f orig st).cols
          = restore_auto_increment st.cols f ∧
      ∀ v, orig = some v →
        (restore_auto_increment_decision f orig st).auto_increment_value
          = some (max (max_id st.rows f + 1) v)) := by
  have hz' : 0 < count_zero source_rows f := (count_zero_pos_iff _ _).mpr hz
  have hne : source_rows.isEmpty = false := by
    cases source_rows with
    | nil =>
      obtain ⟨r, hr, _⟩ := hz
      cases hr
    | cons a l => rfl
  have key : replicate_table_data source_rows s =
      ⟨remove_auto_increment s.cols f, source_rows, s.auto_increment_value, false⟩ := by
    simp only [replicate_table_data, hf, hne, restore_auto_increment_decision,
      if_pos hz', Bool.false_eq_true, if_false]
  refine ⟨?_, ?_⟩
  · rw [key]
    exact ⟨rfl, hz, remove_auto_increment_extra s.cols f, rfl⟩
  · intro orig st h0
    have hlt : ¬ 0 < count_zero st.rows f := by omega
    rw [restore_auto_increment_decision, if_neg hlt]
    cases orig with
    | none => exact ⟨rfl, fun v hv => by cases hv⟩
    | some v => exact ⟨rfl, fun w hw => by cases hw; rfl⟩

/-- Concrete table for the C1 witness: an `id auto_increment` column plus a
payload column, a recorded counter of 5, and one source row with `id = 0`. -/
def c1state : SyncTableState :=
  ⟨[⟨"id", "int(11)", "NO", "PRI", none, "auto_increment"⟩,
    ⟨"name", "varchar(50)", "YES", "", none, ""⟩], [], some 5, false⟩

def c1rows : List Row := [[("id", some 0), ("name", some 1)]]

/-- C1 witness: the theorem applied to the concrete one-row table. -/
theorem claim_C1_witness :
    (auto_increment_field c1state.cols = some "id" ∧
      ∃ r ∈ c1rows, rowVal r "id" = some 0) ∧
    ((replicate_table_data c1rows c1state).rows = c1rows ∧
      (∃ r ∈ (replicate_table_data c1rows c1state).rows, rowVal r "id" = some 0) ∧
      (∀ c ∈ (replicate_table_data c1rows c1state).cols,
        c.Field = "id" → c.Extra = "") ∧
      (replicate_table_data c1rows c1state).auto_increment_value
        = c1state.auto_increment_value) :=
  ⟨⟨by decide, by decide⟩,
    (claim_C1_zero_identity_preservation c1rows c1state "id"
      (by decide) (by decide)).1⟩

/-! ## Validation: `validate_replication`

`validate_replication` (`replication.py:449-517`) compares, per table, the
normalized source and target structures; equal structures are recorded as
matches, unequal ones get a difference list from
`_find_structure_differences`.
-/

/-- A normalized column (`_normalize_structure_for_comparison`,
`replication.py:710-721`): only `Field`, `Type`, `Null`, `Default` and
`Extra` are kept — key/FK metadata is dropped. -/
structure NormColumn where
  Field : String
  Typ : String
  Null : String
  Default : Option String
  Extra : String
  deriving Repr, DecidableEq

/-- `_normalize_structure_for_comparison` (`replication.py:710-721`). -/
def normalize_structure_for_comparison (struc : List TableColumn) : List NormColumn :=
  struc.map (fun c => ⟨c.Field, c.Typ, c.Null, c.Default, c.Extra⟩)

/-- The match decision at `replication.py:491`: the normalized structures
are compared for exact equality. -/
def structures_match (source target : List TableColumn) : Bool :=
  normalize_structure_for_comparison source == normalize_structure_for_comparison target

/-- Keys of the Python dict `{col['Field']: col for col in cols}` in
iteration order (first occurrence of each field). -/
def dict_keys (cols : List NormColumn) : List String :=
  cols.foldl (fun ks c => if c.Field ∈ ks then ks else ks ++ [c.Field]) []

/-- Value lookup in `{col['Field']: col for col in cols}` — on duplicate
fields the last occurrence wins. -/
def dict_get (cols : List NormColumn) (k : String) : Option NormColumn :=
  cols.reverse.find? (fun c => c.Field == k)

/-- `_find_structure_differences` (`replication.py:723-746`): one line per
field missing on either side, then one line per shared field whose
definitions differ. -/
def find_structure_differences (source target : List NormColumn) : List String :=
  let sk := dict_keys source
  let tk := dict_keys target
  ((sk.filter (fun f => f ∉ tk)).map
      (fun f => "Campo " ++ f ++ " existe no origem mas nao no destino")) ++
  ((tk.filter (fun f => f ∉ sk)).map
      (fun f => "Campo " ++ f ++ " existe no destino mas nao no origem")) ++
  (((sk.filter (fun f => f ∈ tk)).filter
      (fun f => dict_get source f ≠ dict_get target f)).map
      (fun f => "Campo " ++ f ++ " tem definicao diferente"))

/-- `dict_keys` only depends on the field names. -/
theorem dict_keys_eq_foldl (cols : List NormColumn) :
    dict_keys cols =
      (cols.map NormColumn.Field).foldl
        (fun ks f => if f ∈ ks then ks else ks ++ [f]) [] := by
  rw [dict_keys, List.foldl_map]

theorem str_foldl_of_nodup :
    ∀ (fs : List String) (ks : List String), fs.Nodup → (∀ f ∈ fs, f ∉ ks) →
      fs.foldl (fun ks f => if f ∈ ks then ks else ks ++ [f]) ks = ks ++ fs := by
  intro fs
  induction fs with
  | nil => intro ks _ _; simp
  | cons f fs ih =>
    intro ks hnd hdisj
    rw [List.foldl_cons, if_neg (hdisj f (List.mem_cons_self _ _))]
    rw [ih (ks ++ [f]) (List.nodup_cons.mp hnd).2]
    · simp
    · intro g hg
      simp only [List.mem_append, List.mem_singleton]
      rintro (hgks | rfl)
      · exact hdisj g (List.mem_cons_of_mem _ hg) hgks
      · exact (List.nodup_cons.mp hnd).1 hg

/-- For duplicate-free field lists the dict keys are just the field names
in order. -/
theorem dict_keys_of_nodup (cols : List NormColumn)
    (h : (cols.map NormColumn.Field).Nodup) :
    dict_keys cols = cols.map NormColumn.Field := by
  rw [dict_keys_eq_foldl]
  simpa using str_foldl_of_nodup (cols.map NormColumn.Field) [] h (by simp)

/-- Looking up the field of the distinguished middle element. -/
theorem dict_get_middle (pre post : List NormColumn) (c : NormColumn)
    (h : ((pre ++ c :: post).map NormColumn.Field).Nodup) :
    dict_get (pre ++ c :: post) c.Field = some c := by
  have hpost : ∀ x ∈ post, x.Field ≠ c.Field := by
    intro x hx heq
    simp only [List.map_append, List.map_cons, List.nodup_append] at h
    rcases List.nodup_cons.mp h.2.1 with ⟨hc, _⟩
    exact hc (heq ▸ List.mem_map_of_mem NormColumn.Field hx)
  have hrev : (pre ++ c :: post).reverse = post.reverse ++ c :: pre.reverse := by
    simp
  rw [dict_get, hrev, List.find?_append]
  have h1 : post.reverse.find? (fun x => x.Field == c.Field) = none := by
    rw [List.find?_eq_none]
    intro x hx
    simp only [beq_iff_eq]
    exact hpost x (List.mem_reverse.mp hx)
  rw [h1]
  simp only [Option.none_or]
  rw [List.find?_cons_of_pos _ (by simp)]

/-- Looking up any other field gives the same result on two lists that
differ only in the middle element (sharing its field name). -/
theorem dict_get_other (pre post : List NormColumn) (c c' : NormColumn)
    (hfield : c'.Field = c.Field) (f : String) (hf : f ≠ c.Field) :
    dict_get (pre ++ c :: post) f = dict_get (pre ++ c' :: post) f := by
  have hrev1 : (pre ++ c :: post).reverse = post.reverse ++ c :: pre.reverse := by
    simp
  have hrev2 : (pre ++ c' :: post).reverse = post.reverse ++ c' :: pre.reverse := by
    simp
  rw [dict_get, dict_get, hrev1, hrev2, List.find?_append, List.find?_append]
  congr 1
  rw [List.find?_cons_of_neg _ (by simp [hf.symm]),
    List.find?_cons_of_neg _ (by simp [hfield, hf.symm])]

theorem normalize_eq_iff_forall2 (src tgt : List TableColumn) :
    normalize_structure_for_comparison src = normalize_structure_for_comparison tgt ↔
    List.Forall₂ (fun a b : TableColumn =>
      a.Field = b.Field ∧ a.Typ = b.Typ ∧ a.Null = b.Null ∧
      a.Default = b.Default ∧ a.Extra = b.Extra) src tgt := by
  induction src generalizing tgt with
  | nil =>
    cases tgt <;> simp [normalize_structure_for_comparison]
  | cons a l ih =>
    cases tgt with
    | nil => simp [normalize_structure_for_comparison]
    | cons b m =>
      simp only [normalize_structure_for_comparison, List.map_cons] at ih ⊢
      simp [List.forall₂_cons, NormColumn.mk.injEq, ih, and_assoc]

/-- C8: the validator marks a table pair as matching exactly when the two
structures agree on name, type, nullability, default and extra for every
column, in order — key/FK metadata is dropped by normalization; and when the
two normalized structures differ only in one column (same name, some other
attribute differing), `_find_structure_differences` reports exactly one
difference line. -/
theorem claim_C8_validator_match_iff_single_difference :
    (∀ src tgt : List TableColumn, structures_match src tgt = true ↔
      List.Forall₂ (fun a b : TableColumn =>
        a.Field = b.Field ∧ a.Typ = b.Typ ∧ a.Null = b.Null ∧
        a.Default = b.Default ∧ a.Extra = b.Extra) src tgt) ∧
    (∀ (src tgt : List TableColumn) (pre post : List NormColumn) (c c' : NormColumn),
      normalize_structure_for_comparison src = pre ++ c :: post →
      normalize_structure_for_comparison tgt = pre ++ c' :: post →
      c'.Field = c.Field → c ≠ c' →
      ((pre ++ c :: post).map NormColumn.Field).Nodup →
      (find_structure_differences (normalize_structure_for_comparison src)
          (normalize_structure_for_comparison tgt)).length = 1) := by
  constructor
  · intro src tgt
    rw [structures_match, beq_iff_eq, normalize_eq_iff_forall2]
  · intro src tgt pre post c c' hs ht hfield hne hnd
    rw [hs, ht]
    have hmap : (pre ++ c :: post).map NormColumn.Field
        = (pre ++ c' :: post).map NormColumn.Field := by
      simp [hfield]
    have hnd2 : ((pre ++ c' :: post).map NormColumn.Field).Nodup := hmap ▸ hnd
    have hk1 : dict_keys (pre ++ c :: post) = (pre ++ c :: post).map NormColumn.Field :=
      dict_keys_of_nodup _ hnd
    have hk2 : dict_keys (pre ++ c' :: post) = (pre ++ c' :: post).map NormColumn.Field :=
      dict_keys_of_nodup _ hnd2
    have hkeq : dict_keys (pre ++ c :: post) = dict_keys (pre ++ c' :: post) := by
      rw [hk1, hk2, hmap]
    have hnd' := hnd
    simp only [List.map_append, List.map_cons, List.nodup_append, List.nodup_cons] at hnd'
    obtain ⟨hnd_pre, ⟨hc_post, hnd_post⟩, hdisj⟩ := hnd'
    have hc_pre : c.Field ∉ pre.map NormColumn.Field := by
      intro hmem
      exact hdisj hmem (List.mem_cons_self _ _)
    have e1 : (dict_keys (pre ++ c :: post)).filter
        (fun f => f ∉ dict_keys (pre ++ c' :: post)) = [] := by
      rw [List.filter_eq_nil_iff]
      intro f hf
      simp only [decide_not, Bool.not_eq_true', decide_eq_false_iff_not, Decidable.not_not]
      rw [← hkeq]
      exact hf
    have e2 : (dict_keys (pre ++ c' :: post)).filter
        (fun f => f ∉ dict_keys (pre ++ c :: post)) = [] := by
      rw [List.filter_eq_nil_iff]
      intro f hf
      simp only [decide_not, Bool.not_eq_true', decide_eq_false_iff_not, Decidable.not_not]
      rw [hkeq]
      exact hf
    have e3a : (dict_keys (pre ++ c :: post)).filter
        (fun f => f ∈ dict_keys (pre ++ c' :: post)) = dict_keys (pre ++ c :: post) := by
      rw [List.filter_eq_self]
      intro f hf
      simp only [decide_eq_true_eq]
      rw [← hkeq]
      exact hf
    have hget_mid1 : dict_get (pre ++ c :: post) c.Field = some c :=
      dict_get_middle pre post c hnd
    have hget_mid2 : dict_get (pre ++ c' :: post) c.Field = some c' := by
      have := dict_get_middle pre post c' hnd2
      rw [hfield] at this
      exact this
    have e3 : (dict_keys (pre ++ c :: post)).filter
        (fun f => dict_get (pre ++ c :: post) f ≠ dict_get (pre ++ c' :: post) f)
          = [c.Field] := by
      rw [hk1]
      simp only [List.map_append, List.map_cons]
      rw [List.filter_append, List.filter_cons]
      have ep : (pre.map NormColumn.Field).filter
          (fun f => dict_get (pre ++ c :: post) f ≠ dict_get (pre ++ c' :: post) f)
            = [] := by
        rw [List.filter_eq_nil_iff]
        intro f hf
        have hfne : f ≠ c.Field := fun heq => hc_pre (heq ▸ hf)
        simp only [ne_eq, decide_not, Bool.not_eq_true', decide_eq_false_iff_not,
          Decidable.not_not]
        exact dict_get_other pre post c c' hfield f hfne
      have epost : (post.map NormColumn.Field).filter
          (fun f => dict_get (pre ++ c :: post) f ≠ dict_get (pre ++ c' :: post) f)
            = [] := by
        rw [List.filter_eq_nil_iff]
        intro f hf
        have hfne : f ≠ c.Field := fun heq => hc_post (heq ▸ hf)
        simp only [ne_eq, decide_not, Bool.not_eq_true', decide_eq_false_iff_not,
          Decidable.not_not]
        exact dict_get_other pre post c c' hfield f hfne
      have ec : (fun f => decide (dict_get (pre ++ c :: post) f
          ≠ dict_get (pre ++ c' :: post) f)) c.Field = true := by
        simp only [ne_eq, decide_not, Bool.not_eq_true', decide_eq_false_iff_not,
          Decidable.not_not, Bool.not_eq_false']
        rw [hget_mid1, hget_mid2]
        simp only [decide_eq_false_iff_not, Option.some.injEq]
        exact hne
      rw [ep, epost, if_pos ec]
      simp
    simp only [find_structure_differences]
    rw [e1, e2, e3a, e3]
    simp

/-- Concrete structures for the C8 witness: source and target agree except
that the `name` column's nullability differs. -/
def c8src : List TableColumn :=
  [⟨"id", "int(11)", "NO", "PRI", none, "auto_increment"⟩,
   ⟨"name", "varchar(50)", "YES", "", none, ""⟩]

def c8tgt : List TableColumn :=
  [⟨"id", "int(11)", "NO", "", none, "auto_increment"⟩,
   ⟨"name", "varchar(50)", "NO", "", none, ""⟩]

/-- C8 witness: one differing attribute (`Null` of `name`) yields exactly
one reported difference; note the differing `Key` of `id` is dropped by
normalization. -/
theorem claim_C8_witness :
    (normalize_structure_for_comparison c8src
        = [⟨"id", "int(11)", "NO", none, "auto_increment"⟩]
            ++ ⟨"name", "varchar(50)", "YES", none, ""⟩ :: [] ∧
      normalize_structure_for_comparison c8tgt
        = [⟨"id", "int(11)", "NO", none, "auto_increment"⟩]
            ++ ⟨"name", "varchar(50)", "NO", none, ""⟩ :: [] ∧
      (⟨"name", "varchar(50)", "NO", none, ""⟩ : NormColumn).Field
        = (⟨"name", "varchar(50)", "YES", none, ""⟩ : NormColumn).Field ∧
      (⟨"name", "varchar(50)", "YES", none, ""⟩ : NormColumn)
        ≠ ⟨"name", "varchar(50)", "NO", none, ""⟩) ∧
    (find_structure_differences (normalize_structure_for_comparison c8src)
        (normalize_structure_for_comparison c8tgt)).length = 1 :=
  ⟨⟨by decide, by decide, by decide, by decide⟩,
    claim_C8_validator_match_iff_single_difference.2 c8src c8tgt
      [⟨"id", "int(11)", "NO", none, "auto_increment"⟩] []
      ⟨"name", "varchar(50)", "YES", none, ""⟩
      ⟨"name", "varchar(50)", "NO", none, ""⟩
      (by decide) (by decide) (by decide) (by decide) (by decide)⟩

/-! ## Data-preserving structural update:
`_update_table_structure_preserving_data`

`_update_table_structure_preserving_data` (`replication.py:887-1011`)
creates a temporary table with the new (FK-stripped) structure, copies the
rows of the intersecting columns, swaps the tables via two renames, and
drops the backup; on failure a cleanup drops the temp table and restores
the backup if the original name is vacant.  The target database is modelled
as an association of table names to tables plus the session FK-checks
toggle.
-/

/-- A target table: its column names in order (`get_table_columns`) and
its rows. -/
structure DbTable where
  cols : List String
  rows : List Row
  deriving Repr, DecidableEq

/-- The target database and its session foreign-key-checks toggle. -/
structure Database where
  tables : List (String × DbTable)
  fk_checks : Bool
  deriving Repr, DecidableEq

def get_table (db : Database) (name : String) : Option DbTable :=
  List.lookup name db.tables

def table_exists (db : Database) (name : String) : Bool :=
  (get_table db name).isSome

/-- `CREATE TABLE name` (or overwrite): binds `name` to `t`. -/
def set_table (db : Database) (name : String) (t : DbTable) : Database :=
  { db with tables := (name, t) :: db.tables.filter (fun p => p.1 ≠ name) }

/-- `DROP TABLE IF EXISTS name`. -/
def drop_table (db : Database) (name : String) : Database :=
  { db with tables := db.tables.filter (fun p => p.1 ≠ name) }

/-- `RENAME TABLE a TO b` (only issued on existing tables by the protocol). -/
def rename_table (db : Database) (a b : String) : Database :=
  match get_table db a with
  | some t => set_table (drop_table db a) b t
  | none => db

/-- The intersection of the original and temporary tables' column names
(`replication.py:917-922`), read off the current database state. -/
def common_columns (db : Database) (table_name temp_name : String) : List String :=
  let original := ((get_table db table_name).map DbTable.cols).getD []
  let newc := ((get_table db temp_name).map DbTable.cols).getD []
  original.filter (fun c => c ∈ newc)

/-- The projection of one row onto the copied columns: what
`INSERT INTO temp (cols) SELECT cols FROM original` stores for one row. -/
def restrict_row (cols : List String) (r : Row) : Row :=
  cols.map (fun c => (c, rowVal r c))

/-- Steps 2-4 of the protocol (`replication.py:917-945`): compute the
common columns and, if there are any, copy the original rows restricted to
them into the temporary table; with no common columns the copy is skipped
with a warning (`replication.py:946-947`). -/
def copy_common (db : Database) (table_name temp_name : String) : Database :=
  let common := common_columns db table_name temp_name
  if common.isEmpty then db
  else
    match get_table db table_name, get_table db temp_name with
    | some orig, some temp =>
        set_table db temp_name ⟨temp.cols, temp.rows ++ orig.rows.map (restrict_row common)⟩
    | _, _ => db

/-- The protocol state: the database plus the Python locals `temp_table`
and `backup_table` (`replication.py:895-896, 960, 965`). -/
structure ProtoState where
  db : Database
  temp_var : Option String
  backup_var : Option String
  deriving Repr, DecidableEq

/-- State before the inner `try` (`replication.py:901-908`): names chosen,
FK checks disabled. -/
def update_init (db : Database) (temp_name backup_name : String) : ProtoState :=
  ⟨{ db with fk_checks := false }, some temp_name, some backup_name⟩

/-- The primitive mutating operations of the inner `try`
(`replication.py:910-965`), in order: create the temp table with the
FK-stripped new structure (its column names `new_cols`), copy the common
columns, rename original to backup, rename temp to the original name
(clearing `temp_table`), drop the backup (clearing `backup_table`). -/
def update_ops (table_name temp_name backup_name : String)
    (new_cols : List String) : List (ProtoState → ProtoState) :=
  [ fun st => { st with db := set_table st.db temp_name ⟨new_cols, []⟩ },
    fun st => { st with db := copy_common st.db table_name temp_name },
    fun st => { st with db := rename_table st.db table_name backup_name },
    fun st =>
      { st with
        db := rename_table st.db temp_name table_name
        temp_var := none },
    fun st =>
      { st with
        db := drop_table st.db backup_name
        backup_var := none } ]

/-- The happy path of `_update_table_structure_preserving_data`: all five
operations succeed and the inner `finally` re-enables FK checks
(`replication.py:969-976`). -/
def update_table_structure_preserving_data (db : Database)
    (table_name temp_name backup_name : String) (new_cols : List String) :
    Database :=
  let final := (update_ops table_name temp_name backup_name new_cols).foldl
    (fun st f => f st) (update_init db temp_name backup_name)
  { final.db with fk_checks := true }

/-- The protocol state at the moment operation number `fail_at` (0-based)
raises: the operations before it have run. -/
def failure_state (db : Database) (table_name temp_name backup_name : String)
    (new_cols : List String) (fail_at : Nat) : ProtoState :=
  ((update_ops table_name temp_name backup_name new_cols).take fail_at).foldl
    (fun st f => f st) (update_init db temp_name backup_name)

/-- The `except` cleanup (`replication.py:978-1008`): disable FK checks,
drop the temp table if it is still present, then — when the backup exists —
rename it back if the original name is vacant, else drop it; finally
re-enable FK checks. -/
def update_cleanup (table_name : String) (st : ProtoState) : Database :=
  let db := { st.db with fk_checks := false }
  let db1 :=
    match st.temp_var with
    | some tmp => if table_exists db tmp then drop_table db tmp else db
    | none => db
  let db2 :=
    match st.backup_var with
    | some b =>
        if table_exists db1 b then
          if table_exists db1 table_name then drop_table db1 b
          else rename_table db1 b table_name
        else db1
    | none => db1
  { db2 with fk_checks := true }

/-- Result of one run of the structural update: the final database and
whether the original exception was re-raised (`replication.py:1011`). -/
structure UpdateResult where
  db : Database
  error : Bool
  deriving Repr, DecidableEq

/-- A run of `_update_table_structure_preserving_data` in which operation
number `fail_at` raises (a value `≥ 5` means no operation fails).  On
failure, the inner `finally` re-enables FK checks before the `except`
cleanup runs, and the exception is re-raised as `ReplicationError`. -/
def run_update (db : Database) (table_name temp_name backup_name : String)
    (new_cols : List String) (fail_at : Nat) : UpdateResult :=
  if fail_at < (update_ops table_name temp_name backup_name new_cols).length then
    let st := failure_state db table_name temp_name backup_name new_cols fail_at
    ⟨update_cleanup table_name { st with db := { st.db with fk_checks := true } }, true⟩
  else
    ⟨update_table_structure_preserving_data db table_name temp_name backup_name
      new_cols, false⟩

theorem lookup_filter_ne (m n : String) (h : m ≠ n) :
    ∀ l : List (String × DbTable),
      List.lookup m (l.filter (fun p => p.1 ≠ n)) = List.lookup m l := by
  intro l
  induction l with
  | nil => rfl
  | cons p rest ih =>
    obtain ⟨k, v⟩ := p
    rw [List.filter_cons]
    by_cases hk : k = n
    · rw [if_neg (by simp [hk]), ih]
      have h2 : (m == k) = false := by
        rw [beq_eq_false_iff_ne, hk]
        exact h
      simp only [List.lookup, h2]
    · rw [if_pos (by simp [hk])]
      by_cases hmk : m = k
      · subst hmk
        simp [List.lookup]
      · have h2 : (m == k) = false := by
          rw [beq_eq_false_iff_ne]
          exact hmk
        simp only [List.lookup, h2]
        exact ih

theorem lookup_filter_self (n : String) :
    ∀ l : List (String × DbTable),
      List.lookup n (l.filter (fun p => p.1 ≠ n)) = none := by
  intro l
  induction l with
  | nil => rfl
  | cons p rest ih =>
    obtain ⟨k, v⟩ := p
    rw [List.filter_cons]
    by_cases hk : k = n
    · rw [if_neg (by simp [hk])]
      exact ih
    · rw [if_pos (by simp [hk])]
      have h2 : (n == k) = false := by
        rw [beq_eq_false_iff_ne]
        exact fun he => hk he.symm
      simp only [List.lookup, h2]
      exact ih

theorem get_table_set (db : Database) (n m : String) (t : DbTable) :
    get_table (set_table db n t) m = if m = n then some t else get_table db m := by
  by_cases h : m = n
  · subst h
    simp [get_table, set_table, List.lookup]
  · rw [if_neg h]
    have h2 : (m == n) = false := by
      rw [beq_eq_false_iff_ne]
      exact h
    show List.lookup m ((n, t) :: db.tables.filter (fun p => p.1 ≠ n))
        = get_table db m
    simp only [List.lookup, h2]
    exact lookup_filter_ne m n h db.tables

theorem get_table_drop (db : Database) (n m : String) :
    get_table (drop_table db n) m = if m = n then none else get_table db m := by
  by_cases h : m = n
  · subst h
    rw [if_pos rfl]
    exact lookup_filter_self m db.tables
  · rw [if_neg h]
    exact lookup_filter_ne m n h db.tables

theorem get_table_fk_update (db : Database) (b : Bool) (m : String) :
    get_table { db with fk_checks := b } m = get_table db m := rfl

theorem rowVal_restrict_row_mem (cols : List String) (r : Row) :
    ∀ c ∈ cols, rowVal (restrict_row cols r) c = rowVal r c := by
  induction cols with
  | nil => intro c hc; cases hc
  | cons d ds ih =>
    intro c hc
    by_cases h : c = d
    · subst h
      simp [restrict_row, rowVal, List.lookup]
    · have h2 : (c == d) = false := by
        rw [beq_eq_false_iff_ne]
        exact h
      rcases List.mem_cons.mp hc with h3 | h3
      · exact absurd h3 h
      · have := ih c h3
        simp only [restrict_row, List.map_cons, rowVal, List.lookup, h2] at this ⊢
        exact this

theorem rowVal_restrict_row_not_mem (cols : List String) (r : Row) :
    ∀ c, c ∉ cols → rowVal (restrict_row cols r) c = none := by
  induction cols with
  | nil => intro c _; rfl
  | cons d ds ih =>
    intro c hc
    have h : c ≠ d := fun he => hc (he ▸ List.mem_cons_self _ _)
    have h2 : (c == d) = false := by
      rw [beq_eq_false_iff_ne]
      exact h
    have := ih c (fun h3 => hc (List.mem_cons_of_mem _ h3))
    simp only [restrict_row, List.map_cons, rowVal, List.lookup, h2] at this ⊢
    exact this

/-- C3 counterexample: a 1-row table whose old and new definitions share no
column names ends the structural update with 0 rows — the copy step is
skipped when the column intersection is empty (`replication.py:924, 946`),
so "exactly N rows" fails. -/
theorem claim_C3_counterexample :
    ((get_table (⟨[("t", ⟨["a"], [[("a", some 1)]]⟩)], true⟩ : Database) "t").map
        (fun tb => tb.rows.length)).getD 0 = 1 ∧
    ((get_table (update_table_structure_preserving_data
        ⟨[("t", ⟨["a"], [[("a", some 1)]]⟩)], true⟩ "t" "tmp" "bak" ["b"]) "t").map
        (fun tb => tb.rows.length)).getD 0 = 0 := by
  decide

/-- C3 (amended with the shared-column proviso the skipped-copy branch
forces): for a non-maintained table existing in the target with `N` rows,
when the old and new definitions share at least one column, the structural
update leaves the table with the new column set, exactly `N` rows, the
values of every shared column preserved row by row, and the dropped columns
absent (both from the column list and from every copied row). -/
theorem claim_C3_amended_structure_update_preserves_rows
    (db : Database) (table_name temp_name backup_name : String)
    (new_cols : List String) (orig : DbTable)
    (hget : get_table db table_name = some orig)
    (htf : table_exists db temp_name = false)
    (hbf : table_exists db backup_name = false)
    (hne1 : temp_name ≠ table_name) (hne2 : backup_name ≠ table_name)
    (hne3 : temp_name ≠ backup_name)
    (hcommon : orig.cols.filter (fun c => c ∈ new_cols) ≠ []) :
    get_table (update_table_structure_preserving_data db table_name temp_name
        backup_name new_cols) table_name
      = some ⟨new_cols, orig.rows.map
          (restrict_row (orig.cols.filter (fun c => c ∈ new_cols)))⟩ ∧
    (orig.rows.map (restrict_row (orig.cols.filter (fun c => c ∈ new_cols)))).length
      = orig.rows.length ∧
    (∀ r ∈ orig.rows, ∀ c, c ∈ orig.cols → c ∈ new_cols →
      rowVal (restrict_row (orig.cols.filter (fun c => c ∈ new_cols)) r) c
        = rowVal r c) ∧
    (∀ c, c ∉ new_cols → ∀ r ∈ orig.rows,
      rowVal (restrict_row (orig.cols.filter (fun c => c ∈ new_cols)) r) c
        = none) := by
  have hie : (orig.cols.filter (fun c => c ∈ new_cols)).isEmpty = false := by
    cases hcc : orig.cols.filter (fun c => c ∈ new_cols) with
    | nil => exact absurd hcc hcommon
    | cons a l => rfl
  refine ⟨?_, List.length_map _ _, ?_, ?_⟩
  · simp only [update_table_structure_preserving_data, update_ops, update_init,
      List.foldl_cons, List.foldl_nil]
    simp [get_table_fk_update, get_table_set, get_table_drop, rename_table,
      copy_common, common_columns, hget, hie, hne1, hne3,
      Ne.symm hne1, Ne.symm hne2]
  · intro r _ c hc1 hc2
    exact rowVal_restrict_row_mem _ r c (List.mem_filter.mpr ⟨hc1, by simp [hc2]⟩)
  · intro c hc r _
    refine rowVal_restrict_row_not_mem _ r c fun hmem => ?_
    exact hc (by simpa using (List.mem_filter.mp hmem).2)

/-- C3 witness: a 2-row table gaining column `c` and losing column `b`;
both rows survive, `a` keeps its values, `b` is gone. -/
theorem claim_C3_amended_witness :
    (get_table (⟨[("t", ⟨["a", "b"],
          [[("a", some 1), ("b", some 2)], [("a", some 3), ("b", some 4)]]⟩)],
        true⟩ : Database) "t"
      = some ⟨["a", "b"],
          [[("a", some 1), ("b", some 2)], [("a", some 3), ("b", some 4)]]⟩ ∧
      (["a", "b"].filter (fun c => c ∈ ["a", "c"])) ≠ []) ∧
    get_table (update_table_structure_preserving_data
        (⟨[("t", ⟨["a", "b"],
            [[("a", some 1), ("b", some 2)], [("a", some 3), ("b", some 4)]]⟩)],
          true⟩ : Database) "t" "tmp" "bak" ["a", "c"]) "t"
      = some ⟨["a", "c"],
          ([[("a", some 1), ("b", some 2)], [("a", some 3), ("b", some 4)]] :
            List Row).map
            (restrict_row ((["a", "b"] : List String).filter
              (fun c => c ∈ ["a", "c"])))⟩ :=
  ⟨⟨by decide, by decide⟩,
    (claim_C3_amended_structure_update_preserves_rows
      ⟨[("t", ⟨["a", "b"],
          [[("a", some 1), ("b", some 2)], [("a", some 3), ("b", some 4)]]⟩)], true⟩
      "t" "tmp" "bak" ["a", "c"]
      ⟨["a", "b"], [[("a", some 1), ("b", some 2)], [("a", some 3), ("b", some 4)]]⟩
      (by decide) (by decide) (by decide) (by decide) (by decide) (by decide)
      (by decide)).1⟩

theorem copy_common_get_other (db : Database) (tn tmp m : String) (hm : m ≠ tmp) :
    get_table (copy_common db tn tmp) m = get_table db m := by
  rw [copy_common]
  by_cases h : (common_columns db tn tmp).isEmpty
  · rw [if_pos h]
  · rw [if_neg h]
    cases h1 : get_table db tn <;> cases h2 : get_table db tmp <;>
      simp [get_table_set, hm]

theorem copy_common_get_self_isSome (db : Database) (tn tmp : String)
    (h : (get_table db tmp).isSome = true) :
    (get_table (copy_common db tn tmp) tmp).isSome = true := by
  rw [copy_common]
  by_cases hce : (common_columns db tn tmp).isEmpty
  · rw [if_pos hce]; exact h
  · rw [if_neg hce]
    cases h1 : get_table db tn <;> cases h2 : get_table db tmp <;>
      simp_all [get_table_set]

/-- C4: when the structural update fails at any operation after the
temporary table was created, the run ends in the re-raised error, the
temporary table is gone from the target (dropped by the cleanup if still
present), foreign-key checks are re-enabled, and whenever at the moment of
failure the backup table existed while the original name was vacant, the
cleanup renames the backup back so the table carries its pre-migration
contents. -/
theorem claim_C4_structural_update_failure_cleanup
    (db : Database) (table_name temp_name backup_name : String)
    (new_cols : List String) (orig : DbTable) (fail_at : Nat)
    (hget : get_table db table_name = some orig)
    (htf : table_exists db temp_name = false)
    (hbf : table_exists db backup_name = false)
    (hne1 : temp_name ≠ table_name) (hne2 : backup_name ≠ table_name)
    (hne3 : temp_name ≠ backup_name)
    (h1 : 1 ≤ fail_at) (h2 : fail_at < 5) :
    (run_update db table_name temp_name backup_name new_cols fail_at).error = true ∧
    (run_update db table_name temp_name backup_name new_cols fail_at).db.fk_checks
      = true ∧
    table_exists
      (run_update db table_name temp_name backup_name new_cols fail_at).db
      temp_name = false ∧
    ((table_exists
        (failure_state db table_name temp_name backup_name new_cols fail_at).db
        backup_name = true ∧
      table_exists
        (failure_state db table_name temp_name backup_name new_cols fail_at).db
        table_name = false) →
      get_table
        (run_update db table_name temp_name backup_name new_cols fail_at).db
        table_name = some orig) := by
  have htn : get_table db temp_name = none := by
    cases h : get_table db temp_name with
    | none => rfl
    | some t => rw [table_exists, h] at htf; simp at htf
  have hbn : get_table db backup_name = none := by
    cases h : get_table db backup_name with
    | none => rfl
    | some t => rw [table_exists, h] at hbf; simp at hbf
  interval_cases fail_at
  · refine ⟨rfl, rfl, ?_, ?_⟩
    · simp [run_update, failure_state, update_ops, update_init, update_cleanup,
        table_exists, get_table_fk_update, get_table_set, get_table_drop,
        rename_table, copy_common_get_other, copy_common_get_self_isSome,
        hget, htn, hbn, hne1, hne2, hne3, Ne.symm hne1, Ne.symm hne2, Ne.symm hne3]
    · intro hpre
      exfalso
      revert hpre
      simp [failure_state, update_ops, update_init, table_exists,
        get_table_fk_update, get_table_set, get_table_drop, rename_table,
        copy_common_get_other, copy_common_get_self_isSome,
        hget, htn, hbn, hne1, hne2, hne3, Ne.symm hne1, Ne.symm hne2, Ne.symm hne3]
  · refine ⟨rfl, rfl, ?_, ?_⟩
    · simp [run_update, failure_state, update_ops, update_init, update_cleanup,
        table_exists, get_table_fk_update, get_table_set, get_table_drop,
        rename_table, copy_common_get_other, copy_common_get_self_isSome,
        hget, htn, hbn, hne1, hne2, hne3, Ne.symm hne1, Ne.symm hne2, Ne.symm hne3]
    · intro hpre
      exfalso
      revert hpre
      simp [failure_state, update_ops, update_init, table_exists,
        get_table_fk_update, get_table_set, get_table_drop, rename_table,
        copy_common_get_other, copy_common_get_self_isSome,
        hget, htn, hbn, hne1, hne2, hne3, Ne.symm hne1, Ne.symm hne2, Ne.symm hne3]
  · refine ⟨rfl, rfl, ?_, ?_⟩
    · simp [run_update, failure_state, update_ops, update_init, update_cleanup,
        table_exists, get_table_fk_update, get_table_set, get_table_drop,
        rename_table, copy_common_get_other, copy_common_get_self_isSome,
        hget, htn, hbn, hne1, hne2, hne3, Ne.symm hne1, Ne.symm hne2, Ne.symm hne3]
    · intro _
      simp [run_update, failure_state, update_ops, update_init, update_cleanup,
        table_exists, get_table_fk_update, get_table_set, get_table_drop,
        rename_table, copy_common_get_other, copy_common_get_self_isSome,
        hget, htn, hbn, hne1, hne2, hne3, Ne.symm hne1, Ne.symm hne2, Ne.symm hne3]
  · have hsome := copy_common_get_self_isSome
      (set_table { db with fk_checks := false } temp_name ⟨new_cols, []⟩)
      table_name temp_name (by simp [get_table_set])
    obtain ⟨tv, htv⟩ := Option.isSome_iff_exists.mp hsome
    refine ⟨rfl, rfl, ?_, ?_⟩
    · simp [run_update, failure_state, update_ops, update_init, update_cleanup,
        table_exists, get_table_fk_update, get_table_set, get_table_drop,
        rename_table, copy_common_get_other, copy_common_get_self_isSome, htv,
        hget, htn, hbn, hne1, hne2, hne3, Ne.symm hne1, Ne.symm hne2, Ne.symm hne3]
    · intro hpre
      exfalso
      revert hpre
      simp [failure_state, update_ops, update_init, table_exists,
        get_table_fk_update, get_table_set, get_table_drop, rename_table,
        copy_common_get_other, copy_common_get_self_isSome, htv,
        hget, htn, hbn, hne1, hne2, hne3, Ne.symm hne1, Ne.symm hne2, Ne.symm hne3]

/-- C4 witness: failure at the rename-temp-to-original step (operation 3),
the point where the backup exists and the original name is vacant; the
table comes back with its pre-migration contents. -/
theorem claim_C4_witness :
    (get_table (⟨[("t", ⟨["a"], [[("a", some 1)]]⟩)], true⟩ : Database) "t"
        = some ⟨["a"], [[("a", some 1)]]⟩ ∧
      table_exists (⟨[("t", ⟨["a"], [[("a", some 1)]]⟩)], true⟩ : Database) "tmp"
        = false ∧
      table_exists (⟨[("t", ⟨["a"], [[("a", some 1)]]⟩)], true⟩ : Database) "bak"
        = false ∧
      (1 : Nat) ≤ 3 ∧ (3 : Nat) < 5) ∧
    ((run_update ⟨[("t", ⟨["a"], [[("a", some 1)]]⟩)], true⟩ "t" "tmp" "bak"
        ["a"] 3).error = true ∧
      (run_update ⟨[("t", ⟨["a"], [[("a", some 1)]]⟩)], true⟩ "t" "tmp" "bak"
        ["a"] 3).db.fk_checks = true ∧
      table_exists (run_update ⟨[("t", ⟨["a"], [[("a", some 1)]]⟩)], true⟩ "t"
        "tmp" "bak" ["a"] 3).db "tmp" = false ∧
      ((table_exists (failure_state ⟨[("t", ⟨["a"], [[("a", some 1)]]⟩)], true⟩
          "t" "tmp" "bak" ["a"] 3).db "bak" = true ∧
        table_exists (failure_state ⟨[("t", ⟨["a"], [[("a", some 1)]]⟩)], true⟩
          "t" "tmp" "bak" ["a"] 3).db "t" = false) →
        get_table (run_update ⟨[("t", ⟨["a"], [[("a", some 1)]]⟩)], true⟩ "t"
          "tmp" "bak" ["a"] 3).db "t" = some ⟨["a"], [[("a", some 1)]]⟩)) :=
  ⟨⟨by decide, by decide, by decide, by decide, by decide⟩,
    claim_C4_structural_update_failure_cleanup
      ⟨[("t", ⟨["a"], [[("a", some 1)]]⟩)], true⟩ "t" "tmp" "bak" ["a"]
      ⟨["a"], [[("a", some 1)]]⟩ 3 (by decide) (by decide) (by decide)
      (by decide) (by decide) (by decide) (by decide) (by decide)⟩

/-! ## Orchestration: `execute_replication`

`execute_replication` (`replication.py:200-412`) iterates over the plan's
tables; each table's migration runs inside a per-table `try` whose handlers
decide between the FK-stripped retry, a failed-table record, or a partial
(structure-only) success.  The database's behavior for one table is
abstracted as the outcomes of the three fallible calls the loop makes.
-/

/-- What the per-table handler can observe about a structure-phase
exception (`replication.py:318-320, 362`): whether it is a
`DatabaseOperationError`, and whether its message mentions
`foreign key`/`constraint`. -/
structure TableError where
  is_db_op : Bool
  mentions_fk : Bool
  deriving Repr, DecidableEq

/-- The outcome of the fallible operations performed for one table:
the structure phase (`none` = success), the FK-stripped retry
(`replication.py:325-330`), the data replication
(`replication.py:291, 335`), and whether the table already exists in the
target (`replication.py:305`). -/
structure TableBehavior where
  struct_err : Option TableError
  retry_ok : Bool
  data_ok : Bool
  exists_in_target : Bool
  deriving Repr, DecidableEq

/-- The suffix with which a table is recorded in `replicated_tables`. -/
inductive TableTag where
  | structure_and_data
  | structure_only
  | updated_preserved
  | created_new
  | no_fk_with_data
  | no_fk
  deriving Repr, DecidableEq

/-- The outcome of one iteration of the per-table loop: how the table is
recorded in `replicated_tables` (if at all), whether it is added to
`data_replicated_tables`, and whether it is added to `failed_tables`. -/
structure TableStepResult where
  replicated : Option TableTag
  data_replicated : Bool
  failed : Bool
  deriving Repr, DecidableEq

/-- One iteration of the loop body (`replication.py:257-370`).  Normal
path: maintained tables replicate structure and then data unconditionally —
a data failure downgrades the record to structure-only
(`replication.py:295-298`); non-maintained tables are updated or created.
A `DatabaseOperationError` mentioning a foreign key/constraint triggers the
FK-stripped retry, after which data is replicated only when the table is
maintained AND `replicate_data` is set (`replication.py:333`); any other
error, or a failed retry, records the table as failed. -/
def process_table (is_maintain replicate_data : Bool) (b : TableBehavior) :
    TableStepResult :=
  match b.struct_err with
  | none =>
    if is_maintain then
      if b.data_ok then ⟨some .structure_and_data, true, false⟩
      else ⟨some .structure_only, false, false⟩
    else
      if b.exists_in_target then ⟨some .updated_preserved, false, false⟩
      else ⟨some .created_new, false, false⟩
  | some e =>
    if e.is_db_op && e.mentions_fk then
      if b.retry_ok then
        if is_maintain && replicate_data then
          if b.data_ok then ⟨some .no_fk_with_data, true, false⟩
          else ⟨some .no_fk, false, false⟩
        else ⟨some .no_fk, false, false⟩
      else ⟨none, false, true⟩
    else ⟨none, false, true⟩

/-- The three accumulator lists of the loop (`replication.py:250-252`). -/
structure LoopAcc where
  replicated : List (String × TableTag)
  data_replicated : List String
  failed : List String
  deriving Repr, DecidableEq

/-- The per-table loop (`replication.py:255-373`): every table of the plan
is processed; exceptions never escape an iteration. -/
def execute_loop (maintain : List String) (replicate_data : Bool)
    (behav : String → TableBehavior) : List String → LoopAcc → LoopAcc
  | [], acc => acc
  | t :: rest, acc =>
    let r := process_table (decide (t ∈ maintain)) replicate_data (behav t)
    execute_loop maintain replicate_data behav rest
      { replicated := acc.replicated ++
          (match r.replicated with
           | some tag => [(t, tag)]
           | none => [])
        data_replicated := acc.data_replicated ++
          (if r.data_replicated then [t] else [])
        failed := acc.failed ++ (if r.failed then [t] else []) }

/-- The run's report (`replication.py:236-242, 392-401`). -/
structure ExecutionReport where
  success : Bool
  tables_replicated : Nat
  replicated_tables : List (String × TableTag)
  data_replicated_tables : List String
  failed_tables : List String
  deriving Repr, DecidableEq

/-- `execute_replication` at the report level: an empty plan returns the
early success report (`replication.py:234-242`); otherwise the loop runs
over all plan tables and `success` is `len(failed_tables) == 0`
(`replication.py:392-401`).  The function is total: per-table failures are
consumed by the loop, not raised. -/
def execute_replication_report (plan_tables maintain : List String)
    (replicate_data : Bool) (behav : String → TableBehavior) :
    ExecutionReport :=
  if plan_tables.isEmpty then ⟨true, 0, [], [], []⟩
  else
    let acc := execute_loop maintain replicate_data behav plan_tables ⟨[], [], []⟩
    ⟨acc.failed.isEmpty, acc.replicated.length, acc.replicated,
      acc.data_replicated, acc.failed⟩

/-- Closed form of the loop: each accumulator list is the initial one plus
the per-table contributions in plan order. -/
theorem execute_loop_eq (maintain : List String) (replicate_data : Bool)
    (behav : String → TableBehavior) :
    ∀ (l : List String) (acc : LoopAcc),
      execute_loop maintain replicate_data behav l acc =
        ⟨acc.replicated ++ l.filterMap (fun t =>
            (process_table (decide (t ∈ maintain)) replicate_data
              (behav t)).replicated.map (fun tag => (t, tag))),
          acc.data_replicated ++ l.filter (fun t =>
            (process_table (decide (t ∈ maintain)) replicate_data
              (behav t)).data_replicated),
          acc.failed ++ l.filter (fun t =>
            (process_table (decide (t ∈ maintain)) replicate_data
              (behav t)).failed)⟩ := by
  intro l
  induction l with
  | nil =>
    intro acc
    simp [execute_loop]
  | cons t rest ih =>
    intro acc
    rw [execute_loop, ih]
    rw [List.filterMap_cons, List.filter_cons, List.filter_cons]
    cases hr : (process_table (decide (t ∈ maintain)) replicate_data
        (behav t)).replicated <;>
      cases hd : (process_table (decide (t ∈ maintain)) replicate_data
        (behav t)).data_replicated <;>
      cases hf : (process_table (decide (t ∈ maintain)) replicate_data
        (behav t)).failed <;>
      simp [hr, hd, hf]

/-- Whenever a table yields no replicated record, it is recorded as
failed — so every plan table is accounted for. -/
theorem process_table_none_failed (m rd : Bool) (b : TableBehavior)
    (h : (process_table m rd b).replicated = none) :
    (process_table m rd b).failed = true := by
  obtain ⟨se, ro, dk, ex⟩ := b
  cases se with
  | none =>
    cases m <;> cases dk <;> cases ex <;> simp [process_table] at h
  | some e =>
    obtain ⟨dbop, fk⟩ := e
    cases dbop <;> cases fk <;> cases ro <;> cases m <;> cases rd <;> cases dk <;>
      first
        | rfl
        | simp [process_table] at h ⊢

/-- Concrete two-table behavior for the C5 partial-success conjunct:
`t1` migrates fully, `t2` hits a non-FK database error. -/
def c5behav : String → TableBehavior := fun t =>
  if t = "t1" then ⟨none, true, true, true⟩
  else ⟨some ⟨true, false⟩, true, true, true⟩

/-- C5: the report's `success` flag is true exactly when `failed_tables` is
empty; an empty plan returns the early success report; and a mixed run
(one table migrated, one failed) is an ordinary report with
`success = false` — the loop consumes per-table errors instead of raising. -/
theorem claim_C5_success_iff_no_failures (plan_tables maintain : List String)
    (replicate_data : Bool) (behav : String → TableBehavior) :
    ((execute_replication_report plan_tables maintain replicate_data
        behav).success = true ↔
      (execute_replication_report plan_tables maintain replicate_data
        behav).failed_tables = []) ∧
    (plan_tables = [] →
      (execute_replication_report plan_tables maintain replicate_data
        behav).success = true) ∧
    ((execute_replication_report ["t1", "t2"] ["t1", "t2"] false
        c5behav).success = false ∧
      (execute_replication_report ["t1", "t2"] ["t1", "t2"] false
        c5behav).replicated_tables ≠ [] ∧
      (execute_replication_report ["t1", "t2"] ["t1", "t2"] false
        c5behav).failed_tables ≠ []) := by
  refine ⟨?_, ?_, by decide, by decide, by decide⟩
  · by_cases hp : plan_tables.isEmpty
    · simp [execute_replication_report, hp]
    · simp [execute_replication_report, hp, List.isEmpty_iff]
  · intro h
    subst h
    rfl

/-- C5 witness: the empty-plan early return. -/
theorem claim_C5_witness :
    (([] : List String) = []) ∧
    (execute_replication_report [] ["t"] false
      (fun _ => ⟨none, true, true, true⟩)).success = true :=
  ⟨rfl, (claim_C5_success_iff_no_failures [] ["t"] false
    (fun _ => ⟨none, true, true, true⟩)).2.1 rfl⟩

/-- C6 counterexample: a maintained table whose structure is created but
whose data replication raises is recorded in `replicated_tables` with the
structure-only tag and is NOT appended to `failed_tables`
(`replication.py:295-298`) — the claim says it should be in the
failed-tables list, but the failed list stays empty. -/
theorem claim_C6_counterexample :
    (execute_replication_report ["t"] ["t"] false
        (fun _ => ⟨none, true, false, true⟩)).failed_tables = [] ∧
    (execute_replication_report ["t"] ["t"] false
        (fun _ => ⟨none, true, false, true⟩)).replicated_tables
      = [("t", TableTag.structure_only)] := by
  decide

/-- C6 (amended): a failure inside a single table's data synchronization is
caught at the per-table boundary and never aborts the outer loop, but the
table is recorded in the replicated list as a structure-only success rather
than appended to the failed-tables list (which records structure-phase
failures); every plan table still ends up accounted for in one of the two
lists. -/
theorem claim_C6_amended_data_failure_is_structure_only
    (plan maintain : List String) (rd : Bool) (behav : String → TableBehavior)
    (t : String) (hmem : t ∈ plan) (hm : t ∈ maintain)
    (hstruct : (behav t).struct_err = none)
    (hdata : (behav t).data_ok = false) :
    (t, TableTag.structure_only)
      ∈ (execute_replication_report plan maintain rd behav).replicated_tables ∧
    t ∉ (execute_replication_report plan maintain rd behav).failed_tables ∧
    (∀ u ∈ plan,
      (∃ tag, (u, tag)
        ∈ (execute_replication_report plan maintain rd behav).replicated_tables) ∨
      u ∈ (execute_replication_report plan maintain rd behav).failed_tables) := by
  have hne : plan.isEmpty = false := by
    cases plan with
    | nil => cases hmem
    | cons a l => rfl
  have hpt : process_table (decide (t ∈ maintain)) rd (behav t)
      = ⟨some .structure_only, false, false⟩ := by
    simp [process_table, hstruct, hm, hdata]
  simp only [execute_replication_report, hne, Bool.false_eq_true, if_false,
    execute_loop_eq, List.nil_append]
  refine ⟨?_, ?_, ?_⟩
  · rw [List.mem_filterMap]
    exact ⟨t, hmem, by rw [hpt]; rfl⟩
  · intro hmem2
    rw [List.mem_filter] at hmem2
    rw [hpt] at hmem2
    simp at hmem2
  · intro u hu
    cases hrep : (process_table (decide (u ∈ maintain)) rd (behav u)).replicated with
    | some tag =>
      exact Or.inl ⟨tag, List.mem_filterMap.mpr ⟨u, hu, by rw [hrep]; rfl⟩⟩
    | none =>
      refine Or.inr (List.mem_filter.mpr ⟨hu, ?_⟩)
      rw [process_table_none_failed _ _ _ hrep]

/-- C6 witness for the amended claim: two maintained tables, the first
one's data sync fails, the second still migrates and nothing lands in the
failed list. -/
theorem claim_C6_amended_witness :
    (("t1" : String) ∈ ["t1", "t2"] ∧ ("t1" : String) ∈ ["t1", "t2"] ∧
      ((fun t => if t = "t1" then (⟨none, true, false, true⟩ : TableBehavior)
          else ⟨none, true, true, true⟩) "t1").struct_err = none ∧
      ((fun t => if t = "t1" then (⟨none, true, false, true⟩ : TableBehavior)
          else ⟨none, true, true, true⟩) "t1").data_ok = false) ∧
    (("t1", TableTag.structure_only)
      ∈ (execute_replication_report ["t1", "t2"] ["t1", "t2"] false
          (fun t => if t = "t1" then ⟨none, true, false, true⟩
            else ⟨none, true, true, true⟩)).replicated_tables ∧
      ("t1" : String)
        ∉ (execute_replication_report ["t1", "t2"] ["t1", "t2"] false
            (fun t => if t = "t1" then ⟨none, true, false, true⟩
              else ⟨none, true, true, true⟩)).failed_tables ∧
      (∀ u ∈ ["t1", "t2"],
        (∃ tag, (u, tag)
          ∈ (execute_replication_report ["t1", "t2"] ["t1", "t2"] false
              (fun t => if t = "t1" then ⟨none, true, false, true⟩
                else ⟨none, true, true, true⟩)).replicated_tables) ∨
        u ∈ (execute_replication_report ["t1", "t2"] ["t1", "t2"] false
            (fun t => if t = "t1" then ⟨none, true, false, true⟩
              else ⟨none, true, true, true⟩)).failed_tables)) :=
  ⟨⟨by decide, by decide, by decide, by decide⟩,
    claim_C6_amended_data_failure_is_structure_only ["t1", "t2"] ["t1", "t2"]
      false
      (fun t => if t = "t1" then ⟨none, true, false, true⟩
        else ⟨none, true, true, true⟩)
      "t1" (by decide) (by decide) (by decide) (by decide)⟩

/-- Whether the table's structure error sends it down the FK-stripped
retry path (`replication.py:320`). -/
def is_fk_fallback (b : TableBehavior) : Bool :=
  match b.struct_err with
  | some e => e.is_db_op && e.mentions_fk
  | none => false

theorem process_table_rd_irrelevant (m rd rd' : Bool) (b : TableBehavior)
    (h : is_fk_fallback b = false) :
    process_table m rd b = process_table m rd' b := by
  obtain ⟨se, ro, dk, ex⟩ := b
  cases se with
  | none => rfl
  | some e =>
    simp only [is_fk_fallback] at h
    simp [process_table, h]

/-- C10: the `replicate_data` flag is consulted only on the FK-failure
fallback path: outside that path one table's processing is identical for
both flag values; on the normal path a maintained table whose structure
and data sync succeed is recorded as structure-plus-data with its data
replicated, for either flag value; and a whole run in which no table hits
the FK fallback produces the identical report under both flag values. -/
theorem claim_C10_replicate_data_flag_only_on_fk_fallback :
    (∀ (m rd rd' : Bool) (b : TableBehavior), is_fk_fallback b = false →
      process_table m rd b = process_table m rd' b) ∧
    (∀ (rd : Bool) (b : TableBehavior), b.struct_err = none → b.data_ok = true →
      process_table true rd b = ⟨some .structure_and_data, true, false⟩) ∧
    (∀ (plan maintain : List String) (rd rd' : Bool)
        (behav : String → TableBehavior),
      (∀ t ∈ plan, is_fk_fallback (behav t) = false) →
      execute_replication_report plan maintain rd behav
        = execute_replication_report plan maintain rd' behav) := by
  refine ⟨process_table_rd_irrelevant, ?_, ?_⟩
  · intro rd b hse hdk
    simp [process_table, hse, hdk]
  · intro plan maintain rd rd' behav hfk
    have hloop : ∀ (l : List String) (acc : LoopAcc),
        (∀ t ∈ l, is_fk_fallback (behav t) = false) →
        execute_loop maintain rd behav l acc
          = execute_loop maintain rd' behav l acc := by
      intro l
      induction l with
      | nil => intro acc _; rfl
      | cons t rest ih =>
        intro acc h
        rw [execute_loop, execute_loop,
          process_table_rd_irrelevant (decide (t ∈ maintain)) rd rd' (behav t)
            (h t (List.mem_cons_self _ _))]
        exact ih _ (fun u hu => h u (List.mem_cons_of_mem _ hu))
    by_cases hp : plan.isEmpty
    · simp [execute_replication_report, hp]
    · simp only [execute_replication_report, hp, Bool.false_eq_true, if_false]
      rw [hloop plan ⟨[], [], []⟩ hfk]

/-- C10 witness: a run with no FK fallback involved gives the same report
with `replicate_data=False` and `replicate_data=True`, and its maintained
table replicates data in both. -/
theorem claim_C10_witness :
    (∀ t ∈ [("t" : String)],
      is_fk_fallback ((fun _ => (⟨none, true, true, true⟩ : TableBehavior)) t)
        = false) ∧
    execute_replication_report ["t"] ["t"] false
        (fun _ => ⟨none, true, true, true⟩)
      = execute_replication_report ["t"] ["t"] true
          (fun _ => ⟨none, true, true, true⟩) :=
  ⟨by decide,
    claim_C10_replicate_data_flag_only_on_fk_fallback.2.2 ["t"] ["t"] false true
      (fun _ => ⟨none, true, true, true⟩) (by decide)⟩

end ReplicOOP
